import Mathlib

set_option linter.unusedVariables false

/-!
Verification of the `gpxjoin` merge engine (`src/src/main.rs`).

The program's core is `join_gpx` (main.rs lines 57-116): a streaming,
event-driven merge of GPX documents.  The XML tokenizer (the external
`quick_xml` library) is abstracted: each input source is modelled as the
list of lexical events the reader yields for it, and the output sink is
modelled as the list of events the writer receives.  Each event carries
the element name the reader reports for it (`start.name()` / `end.name()`)
together with its serialized byte content `raw`, so the bytes an input or
output stream holds are the concatenation of the `raw` fields of its
events.  All the per-event logic of `join_gpx` - the path stack, the
capture of the pending root close, the inclusion filter, the tag-balance
check - is translated below statement by statement from the Rust source.
-/

/-- One lexical unit of the parsed XML stream, as produced by
`Reader::read_event` (end-of-input is the end of the list).  `start` is
`Event::Start`, `endTag` is `Event::End`, and `other` covers every event
kind the merge loop treats generically (text, CDATA, comments, processing
instructions, declarations, empty elements): main.rs handles all of those
through its catch-all match arms.  `raw` is the event's serialized bytes,
written back verbatim by `Writer::write_event`. -/
inductive Event where
  | start (name : String) (raw : String)
  | endTag (name : String) (raw : String)
  | other (raw : String)
deriving DecidableEq, Repr

/-- Serialized bytes of one event. -/
def Event.raw : Event → String
  | .start _ r => r
  | .endTag _ r => r
  | .other r => r

/-- Bytes of an event stream: the concatenation of the serialized bytes of
its events, as a character list. -/
def raws : List Event → List Char
  | [] => []
  | e :: rest => e.raw.data ++ raws rest

/-- The two failure cases of the tag-balance check in the merge loop
(main.rs lines 90-98): an end tag arriving while the path stack is empty,
or a popped name differing from the end tag's name.  Both carry the
offending tag names, as the `bail!` messages do. -/
inductive JoinError where
  | unexpectedEndEmpty (name : String)
  | tagMismatch (popped sawName : String)
deriving DecidableEq, Repr

/-- Result of a whole run of `join_gpx`.  `ok` and `err` are the `Ok`/`Err`
cases of the returned `anyhow::Result`; `panicNoFirst` models the case in
which `first.unwrap()` (main.rs line 104) is reached with `first` still
`None`, which aborts the process without returning a `Result` at all.
Every constructor carries the events already written to the output sink
when the run ends: bytes written before a failure stay written. -/
inductive Outcome where
  | ok (written : List Event)
  | err (e : JoinError) (written : List Event)
  | panicNoFirst (written : List Event)
deriving DecidableEq, Repr

/-- The `StartsWithExt::starts_with` helper of main.rs lines 14-26: a
length test followed by an elementwise comparison of the zipped lists. -/
def stackStartsWith (self other : List String) : Bool :=
  if self.length < other.length then false
  else ((self.zip other).all fun p => p.1 == p.2)

/-- The pattern `[b"gpx", b"trk"]` used by the inclusion filter
(main.rs line 87). -/
def gpxTrk : List String := ["gpx", "trk"]

/-- One source's event loop (main.rs lines 66-100), as a function of the
events still unread, the element path stack and the events already
written.  `firstNone` is the value of `first.is_none()` while this source
runs (it can only change between sources, because setting `first`
immediately breaks the loop).  The result is either a bailed-out error
with the output written so far, or the output together with an optional
captured pair: the reader's remaining events and the stashed end event
(`first = Some((r, evt))`, main.rs line 80). -/
def runSource (firstNone : Bool) :
    List Event → List String → List Event →
    Except (JoinError × List Event) (List Event × Option (List Event × Event))
  | [], _, out => Except.ok (out, none)
  | Event.start name raw :: rest, path, out =>
      runSource firstNone rest (path ++ [name])
        (if firstNone = true ∨ stackStartsWith (path ++ [name]) gpxTrk = true
          then out ++ [Event.start name raw] else out)
  | Event.endTag name raw :: rest, path, out =>
      if firstNone = true ∧ path = ["gpx"] then
        Except.ok (out, some (rest, Event.endTag name raw))
      else
        let out2 := if firstNone = true ∨ stackStartsWith path gpxTrk = true
          then out ++ [Event.endTag name raw] else out
        match path.getLast? with
        | none => Except.error (JoinError.unexpectedEndEmpty name, out2)
        | some popped =>
            if popped = name then runSource firstNone rest path.dropLast out2
            else Except.error (JoinError.tagMismatch popped name, out2)
  | Event.other raw :: rest, path, out =>
      runSource firstNone rest path
        (if firstNone = true ∨ stackStartsWith path gpxTrk = true
          then out ++ [Event.other raw] else out)

/-- The outer structure of `join_gpx`: the `for source in sources` loop
(main.rs line 65) threading `first` and the writer through the sources,
then the finishing phase (main.rs lines 103-113): unwrap `first` - a
process abort if it was never set - write the stashed event, and drain the
paused reader verbatim. -/
def joinLoop : List (List Event) → Option (List Event × Event) → List Event → Outcome
  | [], none, out => Outcome.panicNoFirst out
  | [], some (restEvts, stash), out => Outcome.ok (out ++ stash :: restEvts)
  | src :: more, first, out =>
      match runSource first.isNone src [] out with
      | Except.error (e, w) => Outcome.err e w
      | Except.ok (out2, some cap) => joinLoop more (some cap) out2
      | Except.ok (out2, none) => joinLoop more first out2

/-- `join_gpx` (main.rs lines 57-116): run every source in order starting
with `first = None`, an empty path per source and an empty output. -/
def join_gpx (sources : List (List Event)) : Outcome := joinLoop sources none []

/-- The only check the CLI layer `main` (main.rs lines 126-128) performs
between opening the files and calling `join_gpx`: with no source files it
bails out before `join_gpx` is ever entered. -/
def mainGuard (files : List (List Event)) : Except String Outcome :=
  if files = [] then Except.error "need at least one source file"
  else Except.ok (join_gpx files)

/-- A sequence of sibling XML nodes (element content): either nothing, a
non-element event, or an element with its children followed by further
siblings.  Flattening a `Forest` yields exactly the event streams a
well-formed document body produces. -/
inductive Forest where
  | nil : Forest
  | consOther (raw : String) (rest : Forest) : Forest
  | consElem (name startRaw endRaw : String) (children rest : Forest) : Forest
deriving DecidableEq, Repr

/-- Event stream of a forest: each element contributes its start tag, its
children's events and its end tag, in document order. -/
def Forest.events : Forest → List Event
  | .nil => []
  | .consOther r rest => Event.other r :: rest.events
  | .consElem n s e cs rest =>
      Event.start n s :: (cs.events ++ (Event.endTag n e :: rest.events))

/-- Specification-side extraction (spec sections 2, 6, 8): the complete
event subtrees of the root-level children named `trk`, in document order,
with everything else dropped. -/
def Forest.trkEvents : Forest → List Event
  | .nil => []
  | .consOther _ rest => rest.trkEvents
  | .consElem n s e cs rest =>
      (if n = "trk" then Event.start n s :: (cs.events ++ [Event.endTag n e]) else [])
        ++ rest.trkEvents

/-- A single well-formed XML document: optional non-element content before
the root (declaration, comments), one root element, and optional
non-element content after it. -/
structure XmlDoc where
  prolog : List String
  rootName : String
  rootStartRaw : String
  body : Forest
  rootEndRaw : String
  trailer : List String
deriving DecidableEq, Repr

/-- Events before the root element. -/
def XmlDoc.prologEvents (d : XmlDoc) : List Event := d.prolog.map Event.other

/-- Events after the root element. -/
def XmlDoc.trailerEvents (d : XmlDoc) : List Event := d.trailer.map Event.other

/-- The full event stream the reader yields for a well-formed document. -/
def XmlDoc.events (d : XmlDoc) : List Event :=
  d.prologEvents
    ++ Event.start d.rootName d.rootStartRaw
      :: (d.body.events ++ Event.endTag d.rootName d.rootEndRaw :: d.trailerEvents)

/-- The path-stack mutation discipline of the merge loop in isolation
(main.rs lines 72-74 and 90-98): push the name on a start tag, pop it on a
matching end tag, leave the stack alone on every other event kind; `none`
when a pop fails. -/
def pathAfter : List Event → List String → Option (List String)
  | [], p => some p
  | Event.start n _ :: r, p => pathAfter r (p ++ [n])
  | Event.endTag n _ :: r, p =>
      match p.getLast? with
      | none => none
      | some m => if m = n then pathAfter r p.dropLast else none
  | Event.other _ :: r, p => pathAfter r p

/-- Number of start-tag events in a stream. -/
def numStarts : List Event → Nat
  | [] => 0
  | Event.start _ _ :: r => numStarts r + 1
  | _ :: r => numStarts r

/-- Number of end-tag events in a stream. -/
def numEnds : List Event → Nat
  | [] => 0
  | Event.endTag _ _ :: r => numEnds r + 1
  | _ :: r => numEnds r

/-- True when no end-tag event of the stream arrives while the path stack
is exactly `[gpx]`, i.e. when processing the stream can never reach the
capture branch of main.rs line 75. -/
def noCapture : List Event → List String → Bool
  | [], _ => true
  | Event.start n _ :: r, p => noCapture r (p ++ [n])
  | Event.endTag _ _ :: r, p => if p = ["gpx"] then false else noCapture r p.dropLast
  | Event.other _ :: r, p => noCapture r p

theorem stackStartsWith_nil : stackStartsWith [] gpxTrk = false := by decide

theorem stackStartsWith_one (a : String) : stackStartsWith [a] gpxTrk = false := by
  simp [stackStartsWith, gpxTrk]

theorem stackStartsWith_cons2 (a b : String) (t : List String) :
    stackStartsWith (a :: b :: t) gpxTrk = true ↔ (a = "gpx" ∧ b = "trk") := by
  simp only [stackStartsWith, gpxTrk]
  rw [if_neg (by simp only [List.length_cons, List.length_nil]; omega)]
  simp [List.zip_cons_cons, List.zip_nil_right]

theorem runSource_forest_verbatim (f : Forest) :
    ∀ (b : String) (bs : List String) (rest out : List Event),
      runSource true (f.events ++ rest) (b :: bs) out
        = runSource true rest (b :: bs) (out ++ f.events) := by
  induction f with
  | nil =>
      intro b bs rest out
      simp [Forest.events]
  | consOther r frest ih =>
      intro b bs rest out
      simp [Forest.events, runSource, ih]
  | consElem n s e cs frest ihc ihr =>
      intro b bs rest out
      have hlast : (b :: (bs ++ [n])).getLast? = some n := by
        rw [show b :: (bs ++ [n]) = (b :: bs) ++ [n] from rfl, List.getLast?_concat]
      have hdrop : (b :: (bs ++ [n])).dropLast = b :: bs := by
        rw [show b :: (bs ++ [n]) = (b :: bs) ++ [n] from rfl, List.dropLast_concat]
      simp [Forest.events, runSource, hlast, hdrop, ihc, ihr, List.append_assoc]

theorem runSource_forest_deep_in (f : Forest) :
    ∀ (t : List String) (rest out : List Event),
      runSource false (f.events ++ rest) ("gpx" :: "trk" :: t) out
        = runSource false rest ("gpx" :: "trk" :: t) (out ++ f.events) := by
  induction f with
  | nil =>
      intro t rest out
      simp [Forest.events]
  | consOther r frest ih =>
      intro t rest out
      simp [Forest.events, runSource, stackStartsWith_cons2, ih]
  | consElem n s e cs frest ihc ihr =>
      intro t rest out
      have hlast : ("gpx" :: "trk" :: (t ++ [n])).getLast? = some n := by
        rw [show "gpx" :: "trk" :: (t ++ [n]) = ("gpx" :: "trk" :: t) ++ [n] from rfl,
          List.getLast?_concat]
      have hdrop : ("gpx" :: "trk" :: (t ++ [n])).dropLast = "gpx" :: "trk" :: t := by
        rw [show "gpx" :: "trk" :: (t ++ [n]) = ("gpx" :: "trk" :: t) ++ [n] from rfl,
          List.dropLast_concat]
      simp [Forest.events, runSource, stackStartsWith_cons2, hlast, hdrop, ihc, ihr,
        List.append_assoc]

theorem runSource_forest_deep_out (f : Forest) :
    ∀ (a b : String) (t : List String) (rest out : List Event),
      ¬(a = "gpx" ∧ b = "trk") →
      runSource false (f.events ++ rest) (a :: b :: t) out
        = runSource false rest (a :: b :: t) out := by
  induction f with
  | nil =>
      intro a b t rest out _
      simp [Forest.events]
  | consOther r frest ih =>
      intro a b t rest out h
      simp [Forest.events, runSource, stackStartsWith_cons2, h, ih]
  | consElem n s e cs frest ihc ihr =>
      intro a b t rest out h
      have hlast : (a :: b :: (t ++ [n])).getLast? = some n := by
        rw [show a :: b :: (t ++ [n]) = (a :: b :: t) ++ [n] from rfl, List.getLast?_concat]
      have hdrop : (a :: b :: (t ++ [n])).dropLast = a :: b :: t := by
        rw [show a :: b :: (t ++ [n]) = (a :: b :: t) ++ [n] from rfl, List.dropLast_concat]
      simp [Forest.events, runSource, stackStartsWith_cons2, h, hlast, hdrop, ihc, ihr]

theorem runSource_forest_body (f : Forest) :
    ∀ (rest out : List Event),
      runSource false (f.events ++ rest) ["gpx"] out
        = runSource false rest ["gpx"] (out ++ f.trkEvents) := by
  induction f with
  | nil =>
      intro rest out
      simp [Forest.events, Forest.trkEvents]
  | consOther r frest ih =>
      intro rest out
      simp [Forest.events, Forest.trkEvents, runSource, stackStartsWith_one, ih]
  | consElem n s e cs frest ihc ihr =>
      intro rest out
      by_cases hn : n = "trk"
      · subst hn
        have hin := runSource_forest_deep_in cs ([] : List String)
        simp [Forest.events, Forest.trkEvents, runSource, stackStartsWith_cons2, hin, ihr,
          List.append_assoc]
      · have hout := runSource_forest_deep_out cs "gpx" n ([] : List String)
        simp [Forest.events, Forest.trkEvents, runSource, stackStartsWith_cons2, hn, hout, ihr]

theorem runSource_forest_body_nongpx (f : Forest) :
    ∀ (r : String), r ≠ "gpx" → ∀ (rest out : List Event),
      runSource false (f.events ++ rest) [r] out = runSource false rest [r] out := by
  induction f with
  | nil =>
      intro r _ rest out
      simp [Forest.events]
  | consOther rw' frest ih =>
      intro r hr rest out
      simp [Forest.events, runSource, stackStartsWith_one, ih _ hr]
  | consElem n s e cs frest ihc ihr =>
      intro r hr rest out
      have hcond : ¬(r = "gpx" ∧ n = "trk") := fun h => hr h.1
      have hout := runSource_forest_deep_out cs r n ([] : List String)
      simp [Forest.events, runSource, stackStartsWith_cons2, hcond, hout, ihr _ hr]

theorem runSource_others_true (l : List String) :
    ∀ (p : List String) (rest out : List Event),
      runSource true ((l.map Event.other) ++ rest) p out
        = runSource true rest p (out ++ l.map Event.other) := by
  induction l with
  | nil => intro p rest out; simp
  | cons r l ih =>
      intro p rest out
      simp [runSource, ih]

theorem runSource_others_skip (l : List String) :
    ∀ (rest out : List Event),
      runSource false ((l.map Event.other) ++ rest) [] out
        = runSource false rest [] out := by
  induction l with
  | nil => intro rest out; simp
  | cons r l ih =>
      intro rest out
      simp [runSource, stackStartsWith_nil, ih]

theorem runSource_others_true_nil (l : List String) (p : List String) (out : List Event) :
    runSource true (l.map Event.other) p out
      = Except.ok (out ++ l.map Event.other, none) := by
  have h := runSource_others_true l p [] out
  rw [List.append_nil] at h
  rw [h, runSource]

theorem runSource_others_skip_nil (l : List String) (out : List Event) :
    runSource false (l.map Event.other) [] out = Except.ok (out, none) := by
  have h := runSource_others_skip l [] out
  rw [List.append_nil] at h
  rw [h, runSource]

theorem runSource_template_gpx (d : XmlDoc) (h : d.rootName = "gpx") :
    ∀ (out : List Event),
      runSource true d.events [] out
        = Except.ok
            (out ++ (d.prologEvents ++ Event.start "gpx" d.rootStartRaw :: d.body.events),
             some (d.trailerEvents, Event.endTag "gpx" d.rootEndRaw)) := by
  intro out
  have hbody := runSource_forest_verbatim d.body "gpx" []
  simp [XmlDoc.events, XmlDoc.prologEvents, h, runSource_others_true, runSource, hbody,
    List.append_assoc]

theorem runSource_template_nongpx (d : XmlDoc) (h : d.rootName ≠ "gpx") :
    ∀ (out : List Event),
      runSource true d.events [] out = Except.ok (out ++ d.events, none) := by
  intro out
  have hbody := runSource_forest_verbatim d.body d.rootName []
  simp [XmlDoc.events, XmlDoc.prologEvents, XmlDoc.trailerEvents, h, runSource_others_true,
    runSource_others_true_nil, runSource, hbody, List.append_assoc]

theorem runSource_contributor_gpx (c : XmlDoc) (h : c.rootName = "gpx") :
    ∀ (out : List Event),
      runSource false c.events [] out = Except.ok (out ++ c.body.trkEvents, none) := by
  intro out
  have hbody := runSource_forest_body c.body
  simp [XmlDoc.events, XmlDoc.prologEvents, XmlDoc.trailerEvents, h, runSource_others_skip,
    runSource_others_skip_nil, runSource, stackStartsWith_one, hbody, List.append_assoc]

theorem runSource_contributor_nongpx (c : XmlDoc) (h : c.rootName ≠ "gpx") :
    ∀ (out : List Event),
      runSource false c.events [] out = Except.ok (out, none) := by
  intro out
  have hbody := runSource_forest_body_nongpx c.body c.rootName h
  simp [XmlDoc.events, XmlDoc.prologEvents, XmlDoc.trailerEvents, h, runSource_others_skip,
    runSource_others_skip_nil, runSource, stackStartsWith_one, hbody, List.append_assoc]

theorem joinLoop_contributors (cs : List XmlDoc) :
    ∀ (h : ∀ c ∈ cs, c.rootName = "gpx") (cap : List Event × Event) (out : List Event),
      joinLoop (cs.map XmlDoc.events) (some cap) out
        = Outcome.ok ((out ++ (cs.map fun c => c.body.trkEvents).flatten) ++ cap.2 :: cap.1) := by
  induction cs with
  | nil =>
      intro _h cap out
      obtain ⟨r, st⟩ := cap
      simp [joinLoop]
  | cons c cs ih =>
      intro h cap out
      have hc : c.rootName = "gpx" := h c (List.mem_cons_self c cs)
      have hrun := runSource_contributor_gpx c hc out
      have ihcs := ih (fun x hx => h x (List.mem_cons_of_mem c hx)) cap
        (out ++ c.body.trkEvents)
      simp [joinLoop, hrun, ihcs, List.append_assoc]

/-- Sample template with no trk children. -/
def docPlain : XmlDoc :=
  { prolog := ["<?xml?>"], rootName := "gpx", rootStartRaw := "<gpx>",
    body := Forest.consOther "hello" Forest.nil, rootEndRaw := "</gpx>", trailer := [] }

/-- Sample template with one trk child containing the text A. -/
def docTrkA : XmlDoc :=
  { prolog := [], rootName := "gpx", rootStartRaw := "<gpx>",
    body := Forest.consElem "trk" "<trk>" "</trk>" (Forest.consOther "A" Forest.nil) Forest.nil,
    rootEndRaw := "</gpx>", trailer := [] }

/-- Sample contributor with one trk child containing the text B. -/
def docTrkB : XmlDoc :=
  { prolog := [], rootName := "gpx", rootStartRaw := "<gpx>",
    body := Forest.consElem "trk" "<trk>" "</trk>" (Forest.consOther "B" Forest.nil) Forest.nil,
    rootEndRaw := "</gpx>", trailer := [] }

/-- Sample contributor carrying root-level metadata before its trk child. -/
def docMetaTrk : XmlDoc :=
  { prolog := [], rootName := "gpx", rootStartRaw := "<gpx>",
    body := Forest.consElem "metadata" "<metadata>" "</metadata>"
      (Forest.consOther "M" Forest.nil)
      (Forest.consElem "trk" "<trk>" "</trk>" (Forest.consOther "B" Forest.nil) Forest.nil),
    rootEndRaw := "</gpx>", trailer := [] }

/-- Sample well-formed document whose root element is named foo, not gpx. -/
def docFoo : XmlDoc :=
  { prolog := [], rootName := "foo", rootStartRaw := "<foo>",
    body := Forest.nil, rootEndRaw := "</foo>", trailer := [] }

/-- Sample well-formed document whose root element is named bar, not gpx. -/
def docBar : XmlDoc :=
  { prolog := [], rootName := "bar", rootStartRaw := "<bar>",
    body := Forest.nil, rootEndRaw := "</bar>", trailer := [] }

/-- C3: for every template document that is a single well-formed XML
document with root element gpx, running join_gpx with that template as the
only source (zero contributors) writes exactly the template's own event
stream, i.e. output bytes identical to the input bytes; in particular this
holds for a document with zero trk children. -/
theorem join_gpx_single_source_identity (d : XmlDoc) (h : d.rootName = "gpx") :
    join_gpx [d.events] = Outcome.ok d.events := by
  have hrun := runSource_template_gpx d h []
  simp only [join_gpx, joinLoop, Option.isNone_none, hrun]
  simp [XmlDoc.events, h, List.append_assoc]

theorem join_gpx_single_source_identity_witness :
    docPlain.rootName = "gpx" ∧ join_gpx [docPlain.events] = Outcome.ok docPlain.events :=
  ⟨rfl, join_gpx_single_source_identity docPlain rfl⟩

/-- C1: for a template and N ≥ 1 contributors, all well-formed with root
gpx, the output is the template's prolog, root start tag and full body
verbatim (its own trk elements in place), followed immediately by every
contributor's trk subtrees in contributor order with nothing inserted
between them, followed by the template's root end tag, followed by any
content after the root in the template. -/
theorem join_gpx_appends_contributor_tracks (t : XmlDoc) (cs : List XmlDoc)
    (ht : t.rootName = "gpx") (hcs : ∀ c ∈ cs, c.rootName = "gpx") (_hne : cs ≠ []) :
    join_gpx (t.events :: cs.map XmlDoc.events)
      = Outcome.ok
          (t.prologEvents
            ++ Event.start "gpx" t.rootStartRaw
              :: (t.body.events
                ++ ((cs.map fun c => c.body.trkEvents).flatten
                  ++ Event.endTag "gpx" t.rootEndRaw :: t.trailerEvents))) := by
  have hrun := runSource_template_gpx t ht []
  simp only [join_gpx, joinLoop, Option.isNone_none, hrun]
  simp [joinLoop_contributors cs hcs, List.append_assoc]

theorem join_gpx_appends_contributor_tracks_witness :
    docTrkA.rootName = "gpx" ∧ (∀ c ∈ [docTrkB], c.rootName = "gpx") ∧
      ([docTrkB] : List XmlDoc) ≠ [] ∧
      join_gpx (docTrkA.events :: [docTrkB].map XmlDoc.events)
        = Outcome.ok
            (docTrkA.prologEvents
              ++ Event.start "gpx" docTrkA.rootStartRaw
                :: (docTrkA.body.events
                  ++ (([docTrkB].map fun c => c.body.trkEvents).flatten
                    ++ Event.endTag "gpx" docTrkA.rootEndRaw :: docTrkA.trailerEvents))) :=
  ⟨rfl, by decide, by decide,
    join_gpx_appends_contributor_tracks docTrkA [docTrkB] rfl (by decide) (by decide)⟩

/-- C5 counterexample: the claim quantifies over every source at index
one or later, but the inclusion filter keys on the stash, not on the
index.  With a template whose root is foo the stash stays unset, so the
index-1 source - a well-formed gpx document with root-level metadata
before its trk child - is processed in write-everything mode: its
metadata events (whose inclusion-check paths gpx and gpx,metadata lack
the gpx,trk prefix) ARE forwarded to the output, and the run even
succeeds, stashing that source's root close. -/
theorem contributor_metadata_forwarded_cex :
    join_gpx [[Event.start "foo" "<foo>", Event.endTag "foo" "</foo>"],
              [Event.start "gpx" "<gpx>",
               Event.start "metadata" "<metadata>", Event.other "M",
               Event.endTag "metadata" "</metadata>",
               Event.start "trk" "<trk>", Event.other "B", Event.endTag "trk" "</trk>",
               Event.endTag "gpx" "</gpx>"]]
      = Outcome.ok [Event.start "foo" "<foo>", Event.endTag "foo" "</foo>",
                    Event.start "gpx" "<gpx>",
                    Event.start "metadata" "<metadata>", Event.other "M",
                    Event.endTag "metadata" "</metadata>",
                    Event.start "trk" "<trk>", Event.other "B", Event.endTag "trk" "</trk>",
                    Event.endTag "gpx" "</gpx>"] := rfl

/-- C5 amended: a contributor source processed while the Pending
Root-Close is set - which is always the case once the template has closed
a gpx root - forwards exactly the event subtrees whose path has the
prefix gpx,trk: for a well-formed gpx contributor, precisely its
root-level trk subtrees in order, and the subtree of a root-level child
not named trk (metadata, waypoints, routes) contributes nothing.  If the
template never fills the stash, a later source is instead processed in
write-everything mode. -/
theorem contributor_events_filtered (c : XmlDoc) (h : c.rootName = "gpx") :
    (∀ out : List Event,
        runSource false c.events [] out = Except.ok (out ++ c.body.trkEvents, none))
    ∧ ∀ (n s e : String) (cs rest : Forest), n ≠ "trk" →
        Forest.trkEvents (Forest.consElem n s e cs rest) = rest.trkEvents := by
  constructor
  · exact runSource_contributor_gpx c h
  · intro n s e cs rest hn
    simp [Forest.trkEvents, hn]

theorem contributor_events_filtered_witness :
    docMetaTrk.rootName = "gpx" ∧
      runSource false docMetaTrk.events [] []
        = Except.ok ([] ++ docMetaTrk.body.trkEvents, none) :=
  ⟨rfl, (contributor_events_filtered docMetaTrk rfl).1 []⟩

/-- C4: on the spec's concrete example scenario, join_gpx succeeds and the
output is byte-for-byte the template's content with the contributor's trk
subtree spliced in before the root close, with nothing inserted at the
seam. -/
theorem join_gpx_example_scenario :
    join_gpx
        [[Event.start "gpx" "<gpx>", Event.start "metadata" "<metadata>", Event.other "M",
          Event.endTag "metadata" "</metadata>", Event.start "trk" "<trk>", Event.other "A",
          Event.endTag "trk" "</trk>", Event.endTag "gpx" "</gpx>"],
         [Event.start "gpx" "<gpx>", Event.start "trk" "<trk>", Event.other "B",
          Event.endTag "trk" "</trk>", Event.endTag "gpx" "</gpx>"]]
      = Outcome.ok
          [Event.start "gpx" "<gpx>", Event.start "metadata" "<metadata>", Event.other "M",
           Event.endTag "metadata" "</metadata>", Event.start "trk" "<trk>", Event.other "A",
           Event.endTag "trk" "</trk>", Event.start "trk" "<trk>", Event.other "B",
           Event.endTag "trk" "</trk>", Event.endTag "gpx" "</gpx>"]
    ∧ raws
          [Event.start "gpx" "<gpx>", Event.start "metadata" "<metadata>", Event.other "M",
           Event.endTag "metadata" "</metadata>", Event.start "trk" "<trk>", Event.other "A",
           Event.endTag "trk" "</trk>", Event.start "trk" "<trk>", Event.other "B",
           Event.endTag "trk" "</trk>", Event.endTag "gpx" "</gpx>"]
        = "<gpx><metadata>M</metadata><trk>A</trk><trk>B</trk></gpx>".data :=
  ⟨rfl, rfl⟩

/-- C9: join_gpx with an empty sources list reaches the unwrap of the
never-set stash and aborts abnormally instead of returning a result, while
the need-at-least-one-source error is produced by the CLI layer's guard
before join_gpx is entered. -/
theorem empty_sources_not_a_result :
    join_gpx [] = Outcome.panicNoFirst [] ∧
      mainGuard [] = Except.error "need at least one source file" :=
  ⟨rfl, rfl⟩

/-- C2 counterexample: the spec's own example of a stray closing tag - a
trk end tag that was never opened - fed as the template does NOT abort
with a tag-mismatch error: the end tag arrives while the path is exactly
gpx with the stash unset, so the capture branch consumes it before the
balance check runs, and the run succeeds, emitting the mismatched pair. -/
theorem capture_skips_balance_check_cex :
    join_gpx [[Event.start "gpx" "<gpx>", Event.endTag "trk" "</trk>"]]
      = Outcome.ok [Event.start "gpx" "<gpx>", Event.endTag "trk" "</trk>"] := rfl

/-- C2 amended: the tag-balance check runs on every end-tag event except
the one consumed by the root-close capture (stash unset and path exactly
gpx), which is stashed without any name check.  Everywhere else, an end
tag arriving on an empty path, or whose name differs from the popped name,
aborts that source immediately with the corresponding error carrying the
offending tag names, and the whole run ends in that error. -/
theorem balance_check_on_end_tags :
    (∀ (firstNone : Bool) (name raw : String) (rest out : List Event),
        runSource firstNone (Event.endTag name raw :: rest) [] out
          = Except.error (JoinError.unexpectedEndEmpty name,
              if firstNone = true then out ++ [Event.endTag name raw] else out))
    ∧ (∀ (firstNone : Bool) (name raw : String) (rest out : List Event)
          (pre : List String) (popped : String),
        popped ≠ name → ¬(firstNone = true ∧ pre ++ [popped] = ["gpx"]) →
        runSource firstNone (Event.endTag name raw :: rest) (pre ++ [popped]) out
          = Except.error (JoinError.tagMismatch popped name,
              if firstNone = true ∨ stackStartsWith (pre ++ [popped]) gpxTrk = true
                then out ++ [Event.endTag name raw] else out))
    ∧ (∀ (src : List Event) (more : List (List Event)) (first : Option (List Event × Event))
          (out w : List Event) (e : JoinError),
        runSource first.isNone src [] out = Except.error (e, w) →
        joinLoop (src :: more) first out = Outcome.err e w) := by
  refine ⟨?_, ?_, ?_⟩
  · intro firstNone name raw rest out
    rw [runSource, if_neg (by simp)]
    simp [stackStartsWith_nil]
  · intro firstNone name raw rest out pre popped hne hcap
    rw [runSource, if_neg hcap]
    simp [List.getLast?_concat, hne, Ne.symm hne]
  · intro src more first out w e hrun
    rw [joinLoop, hrun]

theorem balance_check_on_end_tags_witness :
    (("a" : String) ≠ "b") ∧ ¬((true : Bool) = true ∧ (["a"] : List String) = ["gpx"]) ∧
      runSource true [Event.endTag "b" "</b>"] ["a"] []
        = Except.error (JoinError.tagMismatch "a" "b", [Event.endTag "b" "</b>"]) :=
  ⟨by decide, by decide, by
    have h := balance_check_on_end_tags.2.1 true "b" "</b>" [] [] [] "a"
      (by decide) (by simp)
    simpa using h⟩

/-- C6 counterexample.  First conjunct: for the template gpx, trk(A),
/trk, /gpx alone, the trk end tag arrives with path gpx,trk - so the path
AFTER its pop is exactly gpx - yet it is forwarded and consumption
continues (it sits in the output before the capture point); the capture
instead fires on the gpx end tag, whose path after the pop is empty.
Second conjunct: when the template (first source, root foo) ends without
any capture, a contributor source (index 1) does trigger the capture: the
run completes successfully, with the contributor's root close stashed and
replayed, which the claim rules out. -/
theorem root_close_capture_cex :
    join_gpx [[Event.start "gpx" "<gpx>", Event.start "trk" "<trk>", Event.other "A",
               Event.endTag "trk" "</trk>", Event.endTag "gpx" "</gpx>"],
              [Event.start "gpx" "<gpx>", Event.start "trk" "<trk>", Event.other "B",
               Event.endTag "trk" "</trk>", Event.endTag "gpx" "</gpx>"]]
      = Outcome.ok [Event.start "gpx" "<gpx>", Event.start "trk" "<trk>", Event.other "A",
                    Event.endTag "trk" "</trk>",
                    Event.start "trk" "<trk>", Event.other "B", Event.endTag "trk" "</trk>",
                    Event.endTag "gpx" "</gpx>"]
    ∧ join_gpx [[Event.start "foo" "<foo>", Event.endTag "foo" "</foo>"],
                [Event.start "gpx" "<gpx>", Event.endTag "gpx" "</gpx>"]]
      = Outcome.ok [Event.start "foo" "<foo>", Event.endTag "foo" "</foo>",
                    Event.start "gpx" "<gpx>", Event.endTag "gpx" "</gpx>"] :=
  ⟨rfl, rfl⟩

/-- C6 amended: the transition out of verbatim streaming occurs exactly
when an end-tag event arrives while the stash is unset and the path BEFORE
the pending pop is exactly gpx (so the path after the pop is empty): that
event is not forwarded but captured with the remaining input, and the
source stops being consumed.  A source processed with the stash already
set never triggers a capture; but the capturing source is whichever source
first reaches such an end tag with the stash unset, which is the template
whenever the template's root is gpx, and can be a later source
otherwise. -/
theorem root_close_capture_spec :
    (∀ (name raw : String) (rest out : List Event),
        runSource true (Event.endTag name raw :: rest) ["gpx"] out
          = Except.ok (out, some (rest, Event.endTag name raw)))
    ∧ (∀ (evs : List Event) (p : List String) (out r : List Event)
          (cap : Option (List Event × Event)),
        runSource false evs p out = Except.ok (r, cap) → cap = none) := by
  constructor
  · intro name raw rest out
    rw [runSource, if_pos ⟨rfl, rfl⟩]
  · intro evs
    induction evs with
    | nil =>
        intro p out r cap h
        rw [runSource] at h
        injection h with h2
        injection h2 with ha hb
        exact hb.symm
    | cons ev rest ih =>
        intro p out r cap h
        match ev with
        | Event.start name raw =>
            rw [runSource] at h
            exact ih _ _ _ _ h
        | Event.other raw =>
            rw [runSource] at h
            exact ih _ _ _ _ h
        | Event.endTag name raw =>
            rw [runSource, if_neg (by simp)] at h
            cases hg : p.getLast? with
            | none => simp [hg] at h
            | some m =>
                simp only [hg] at h
                by_cases hm : m = name
                · rw [if_pos hm] at h
                  exact ih _ _ _ _ h
                · rw [if_neg hm] at h
                  exact absurd h (by simp)

theorem root_close_capture_spec_witness :
    runSource true [Event.endTag "gpx" "</gpx>"] ["gpx"] []
        = Except.ok ([], some ([], Event.endTag "gpx" "</gpx>"))
    ∧ (none : Option (List Event × Event)) = none :=
  ⟨root_close_capture_spec.1 "gpx" "</gpx>" [] [],
    root_close_capture_spec.2 [] [] [] [] none rfl⟩

/-- C7 counterexample: with a template whose root is foo (its end of input
is reached without any end tag at path gpx) and a well-formed gpx
contributor, the run does not fail at all: the template streams through
verbatim, the stash is filled by the contributor, and join_gpx returns
success - not a missing-template-root-close failure. -/
theorem template_nongpx_cex :
    join_gpx [[Event.start "foo" "<foo>", Event.endTag "foo" "</foo>"],
              [Event.start "gpx" "<gpx>", Event.start "trk" "<trk>", Event.other "B",
               Event.endTag "trk" "</trk>", Event.endTag "gpx" "</gpx>"]]
      = Outcome.ok [Event.start "foo" "<foo>", Event.endTag "foo" "</foo>",
                    Event.start "gpx" "<gpx>", Event.start "trk" "<trk>", Event.other "B",
                    Event.endTag "trk" "</trk>", Event.endTag "gpx" "</gpx>"] := rfl

/-- C7 amended: reaching end of input on the template without ever seeing
an end tag at path exactly gpx does not abort the run there: the whole
template is forwarded verbatim and processing moves to the next source
with the stash still unset (so a later source can fill it).  Only when
every source has been exhausted with the stash never set does the run
fail, and it does so by aborting on the unwrap of the unset stash rather
than by returning an error; in particular a run whose only source is a
well-formed document with a non-gpx root fails that way. -/
theorem template_nongpx_behavior (d : XmlDoc) (h : d.rootName ≠ "gpx") :
    join_gpx [d.events] = Outcome.panicNoFirst d.events
    ∧ ∀ (more : List (List Event)) (out : List Event),
        joinLoop (d.events :: more) none out = joinLoop more none (out ++ d.events) := by
  have hstep : ∀ (more : List (List Event)) (out : List Event),
      joinLoop (d.events :: more) none out = joinLoop more none (out ++ d.events) := by
    intro more out
    have hrun := runSource_template_nongpx d h out
    simp only [joinLoop, Option.isNone_none, hrun]
  refine ⟨?_, hstep⟩
  have h0 := hstep [] []
  rw [join_gpx, h0]
  simp [joinLoop]

theorem template_nongpx_behavior_witness :
    docFoo.rootName ≠ "gpx" ∧ join_gpx [docFoo.events] = Outcome.panicNoFirst docFoo.events :=
  ⟨by decide, (template_nongpx_behavior docFoo (by decide)).1⟩

/-- C10 counterexample: when the template itself never fills the stash
(root foo), the source at index 1 - well formed and balanced, root bar,
not gpx - is processed with the stash still unset, so its events ARE
forwarded to the output, and the run then aborts on the unset stash
rather than proceeding successfully. -/
theorem contributor_nongpx_cex :
    join_gpx [[Event.start "foo" "<foo>", Event.endTag "foo" "</foo>"],
              [Event.start "bar" "<bar>", Event.endTag "bar" "</bar>"]]
      = Outcome.panicNoFirst
          [Event.start "foo" "<foo>", Event.endTag "foo" "</foo>",
           Event.start "bar" "<bar>", Event.endTag "bar" "</bar>"] := rfl

/-- C10 amended: a contributor source processed while the stash is set
(which is always the case once the template has closed a gpx root) whose
own root is not named gpx, but which is well formed and balanced, never
fails the run, contributes no events to the output, and processing simply
advances to the next source with the engine state unchanged. -/
theorem contributor_nongpx_skipped (c : XmlDoc) (h : c.rootName ≠ "gpx") :
    ∀ (cap : List Event × Event) (more : List (List Event)) (out : List Event),
      joinLoop (c.events :: more) (some cap) out = joinLoop more (some cap) out := by
  intro cap more out
  have hrun := runSource_contributor_nongpx c h out
  simp only [joinLoop, Option.isNone_some, hrun]

theorem contributor_nongpx_skipped_witness :
    docBar.rootName ≠ "gpx" ∧
      joinLoop [docBar.events] (some ([], Event.endTag "gpx" "</gpx>")) []
        = joinLoop [] (some ([], Event.endTag "gpx" "</gpx>")) [] :=
  ⟨by decide,
    contributor_nongpx_skipped docBar (by decide) ([], Event.endTag "gpx" "</gpx>") [] []⟩

/-- C8: the element path follows exactly the push-on-start,
pop-on-matching-end discipline (pathAfter), mutated by no other event
kind, so its length always equals the nesting depth: final length plus
end tags seen equals initial length plus start tags seen.  Moreover the
merge loop's own path argument evolves by precisely that discipline: for
any stream fragment that pathAfter carries from p to q, processing the
fragment continues as processing of the remaining events from path q
(for a stash-set source unconditionally; for a stash-unset source
whenever the fragment cannot reach the capture branch).  Each source's
pass starts from the empty path, as joinLoop invokes runSource with []. -/
theorem path_tracking_invariant :
    (∀ (evs : List Event) (p q : List String), pathAfter evs p = some q →
        q.length + numEnds evs = p.length + numStarts evs)
    ∧ (∀ (evs : List Event) (p q : List String), pathAfter evs p = some q →
        ∀ (rest out : List Event), ∃ out2,
          runSource false (evs ++ rest) p out = runSource false rest q out2)
    ∧ (∀ (evs : List Event) (p q : List String), pathAfter evs p = some q →
        noCapture evs p = true →
        ∀ (rest out : List Event), ∃ out2,
          runSource true (evs ++ rest) p out = runSource true rest q out2) := by
  refine ⟨?_, ?_, ?_⟩
  · intro evs
    induction evs with
    | nil =>
        intro p q h
        rw [pathAfter] at h
        injection h with h
        subst h
        simp [numStarts, numEnds]
    | cons ev tl ih =>
        intro p q h
        match ev with
        | Event.start n raw =>
            rw [pathAfter] at h
            have hrec := ih (p ++ [n]) q h
            simp only [List.length_append, List.length_cons, List.length_nil] at hrec
            simp only [numStarts, numEnds]
            omega
        | Event.other raw =>
            rw [pathAfter] at h
            have hrec := ih p q h
            simp only [numStarts, numEnds]
            omega
        | Event.endTag n raw =>
            rw [pathAfter] at h
            cases hg : p.getLast? with
            | none => simp [hg] at h
            | some m =>
                simp only [hg] at h
                by_cases hm : m = n
                · rw [if_pos hm] at h
                  have hrec := ih p.dropLast q h
                  have hp : p ≠ [] := by
                    intro hp
                    rw [hp] at hg
                    simp at hg
                  have hl : p.dropLast.length = p.length - 1 := List.length_dropLast p
                  have hpos : 0 < p.length := List.length_pos.mpr hp
                  simp only [numStarts, numEnds]
                  omega
                · rw [if_neg hm] at h
                  simp at h
  · intro evs
    induction evs with
    | nil =>
        intro p q h rest out
        rw [pathAfter] at h
        injection h with h
        subst h
        exact ⟨out, by simp⟩
    | cons ev tl ih =>
        intro p q h rest out
        match ev with
        | Event.start n raw =>
            rw [pathAfter] at h
            simp only [List.cons_append, runSource]
            exact ih (p ++ [n]) q h rest _
        | Event.other raw =>
            rw [pathAfter] at h
            simp only [List.cons_append, runSource]
            exact ih p q h rest _
        | Event.endTag n raw =>
            rw [pathAfter] at h
            cases hg : p.getLast? with
            | none => simp [hg] at h
            | some m =>
                simp only [hg] at h
                by_cases hm : m = n
                · rw [if_pos hm] at h
                  simp only [List.cons_append, runSource]
                  rw [if_neg (by simp)]
                  simp only [hg, if_pos hm]
                  exact ih p.dropLast q h rest _
                · rw [if_neg hm] at h
                  simp at h
  · intro evs
    induction evs with
    | nil =>
        intro p q h hnc rest out
        rw [pathAfter] at h
        injection h with h
        subst h
        exact ⟨out, by simp⟩
    | cons ev tl ih =>
        intro p q h hnc rest out
        match ev with
        | Event.start n raw =>
            rw [pathAfter] at h
            rw [noCapture] at hnc
            simp only [List.cons_append, runSource]
            exact ih (p ++ [n]) q h hnc rest _
        | Event.other raw =>
            rw [pathAfter] at h
            rw [noCapture] at hnc
            simp only [List.cons_append, runSource]
            exact ih p q h hnc rest _
        | Event.endTag n raw =>
            rw [pathAfter] at h
            rw [noCapture] at hnc
            by_cases hpg : p = ["gpx"]
            · rw [if_pos hpg] at hnc
              simp at hnc
            · rw [if_neg hpg] at hnc
              cases hg : p.getLast? with
              | none => simp [hg] at h
              | some m =>
                  simp only [hg] at h
                  by_cases hm : m = n
                  · rw [if_pos hm] at h
                    simp only [List.cons_append, runSource]
                    rw [if_neg (fun hh => hpg hh.2)]
                    simp only [hg, if_pos hm]
                    exact ih p.dropLast q h hnc rest _
                  · rw [if_neg hm] at h
                    simp at h

theorem path_tracking_invariant_witness :
    pathAfter [Event.start "a" "<a>"] [] = some ["a"]
    ∧ noCapture [Event.start "a" "<a>"] [] = true
    ∧ (["a"] : List String).length + numEnds [Event.start "a" "<a>"]
        = ([] : List String).length + numStarts [Event.start "a" "<a>"]
    ∧ (∃ out2, runSource false ([Event.start "a" "<a>"] ++ []) [] []
        = runSource false [] ["a"] out2)
    ∧ (∃ out2, runSource true ([Event.start "a" "<a>"] ++ []) [] []
        = runSource true [] ["a"] out2) :=
  ⟨rfl, rfl,
    path_tracking_invariant.1 [Event.start "a" "<a>"] [] ["a"] rfl,
    path_tracking_invariant.2.1 [Event.start "a" "<a>"] [] ["a"] rfl [] [],
    path_tracking_invariant.2.2 [Event.start "a" "<a>"] [] ["a"] rfl rfl [] []⟩
